import Mathlib

/-!
Verification of the reference/snapshot lifecycle subsystem and the device
connection cache of the android-ui-agent repository.

The Lean definitions below are a shallow embedding of the Python sources
`src/core/ref_system.py` and `src/core/device_manager.py`:

* Python `dict`s become association lists with Python's update semantics
  (assignment to an existing key replaces the value in place, assignment to a
  fresh key appends; `pop` removes the entry).
* `collections.deque` becomes a plain list (append at the tail, `popleft`
  drops the head).
* Wall-clock time (`time.time()`) is passed in explicitly as an integer
  number of abstract time units; the code only ever subtracts and compares
  timestamps, so an ordered integral model is adequate.
* Effectful external collaborators (the XML library parse, `u2.connect`,
  the `adb` device listing, the `device.info` liveness probe, `uuid.uuid4`)
  are passed in as explicit arguments describing their outcome.
* Exceptions become an error sum type `AgentError`; each constructor is the
  image of one concrete exception class of `src/core/exceptions.py`
  (`malformedInput` models the builtin `ValueError` raised by
  `SnapshotManager._parse_hierarchy`).
-/

namespace AndroidAgent

/-! ### Python dict / deque primitives -/

/-- Python dict assignment `m[k] = v`: replace in place if the key is present,
append otherwise (dicts preserve insertion order). -/
def dictSet {α : Type} : List (String × α) → String → α → List (String × α)
  | [], k, v => [(k, v)]
  | (k0, v0) :: rest, k, v =>
    if k0 = k then (k, v) :: rest else (k0, v0) :: dictSet rest k v

/-- Python dict `m.pop(k, None)`: drop the entry for `k` if present. -/
def dictPop {α : Type} : List (String × α) → String → List (String × α)
  | [], _ => []
  | (k0, v0) :: rest, k =>
    if k0 = k then rest else (k0, v0) :: dictPop rest k

/-! ### Python string helpers used by `_parse_bounds` and `int()` -/

/-- Auxiliary state machine for `re.findall(r"\d+", s)`: `cur` is the current
digit run, reversed. -/
def digitRunsAux : List Char → List Char → List (List Char)
  | cur, [] => if cur.isEmpty then [] else [cur.reverse]
  | cur, c :: cs =>
    if c.isDigit then digitRunsAux (c :: cur) cs
    else if cur.isEmpty then digitRunsAux [] cs
    else cur.reverse :: digitRunsAux [] cs

/-- `re.findall(r"\d+", s)`: the maximal runs of ASCII digits in `s`. -/
def digitRuns (s : List Char) : List (List Char) := digitRunsAux [] s

/-- Decimal value of a run of digits (Python `int` on a digit string). -/
def digitsToNat (l : List Char) : Nat :=
  l.foldl (fun a c => a * 10 + (c.toNat - '0'.toNat)) 0

/-- Characters stripped by Python `str.strip()` (ASCII whitespace). -/
def pyIsSpace (c : Char) : Bool :=
  c = ' ' || c = '\t' || c = '\n' || c = '\r' || c = '\x0b' || c = '\x0c'

/-- Python `str.strip()` on a character list. -/
def pyStrip (l : List Char) : List Char :=
  ((l.dropWhile pyIsSpace).reverse.dropWhile pyIsSpace).reverse

/-- Digit block with optional single underscores between digits, as accepted
by Python `int()` after the optional sign: nonempty, starts and ends with a
digit, never two underscores in a row. -/
def vudAux : List Char → Bool
  | [] => true
  | ['_'] => false
  | '_' :: c :: rest => c.isDigit && vudAux (c :: rest)
  | c :: rest => c.isDigit && vudAux rest

def validUnderscoredDigits : List Char → Bool
  | [] => false
  | c :: rest => c.isDigit && vudAux (c :: rest)

/-- Python `int(s)` for a string argument: strip whitespace, optional sign,
digits with optional grouping underscores; `none` models the `ValueError`
raised on anything else.  (Non-ASCII decimal digits are not modelled.) -/
def pyInt? (s : String) : Option Int :=
  let l := pyStrip s.data
  let signed : Int × List Char :=
    match l with
    | '+' :: t => (1, t)
    | '-' :: t => (-1, t)
    | t => (1, t)
  if validUnderscoredDigits signed.2 then
    some (signed.1 * (digitsToNat (signed.2.filter (fun c => c ≠ '_')) : Int))
  else none

/-- `_parse_bounds`: extract the first four integers of a bounds string such
as `"[100,200][300,400]"`; fewer than four integers give `(0, 0, 0, 0)`.
The regex `\d+` only ever captures nonnegative integers, so `Nat` is exact. -/
def parseBounds (bounds_str : String) : Nat × Nat × Nat × Nat :=
  match digitRuns bounds_str.data with
  | a :: b :: c :: d :: _ => (digitsToNat a, digitsToNat b, digitsToNat c, digitsToNat d)
  | _ => (0, 0, 0, 0)

/-! ### ElementInfo (`ref_system.py`) -/

structure ElementInfo where
  ref : String
  class_name : String
  bounds : Nat × Nat × Nat × Nat
  resource_id : Option String := none
  text : Option String := none
  content_desc : Option String := none
  package : Option String := none
  clickable : Bool := false
  focusable : Bool := false
  enabled : Bool := true
  checked : Option Bool := none
  selected : Bool := false
  scrollable : Bool := false
  long_clickable : Bool := false
  index : Int := 0
  deriving DecidableEq, Repr

/-- `ElementInfo.center`: midpoint of the bounds with Python floor division
(`//`), exact on naturals. -/
def ElementInfo.center (e : ElementInfo) : Nat × Nat :=
  ((e.bounds.1 + e.bounds.2.2.1) / 2, (e.bounds.2.1 + e.bounds.2.2.2) / 2)

def ElementInfo.width (e : ElementInfo) : Nat := e.bounds.2.2.1 - e.bounds.1

def ElementInfo.height (e : ElementInfo) : Nat := e.bounds.2.2.2 - e.bounds.2.1

/-! ### The UI hierarchy document

`xml.etree` elements are trees carrying a tag and an attribute dict.  The
children lists are represented by the mutually inductive `XNodes` so that the
recursive traversal is structural (hence computable by the kernel). -/

mutual
inductive XNode where
  | node (tag : String) (attrib : List (String × String)) (children : XNodes)
inductive XNodes where
  | nil
  | cons (hd : XNode) (tl : XNodes)
end

def XNode.tagOf : XNode → String
  | .node t _ _ => t

def XNode.attribOf : XNode → List (String × String)
  | .node _ a _ => a

def XNode.childrenOf : XNode → XNodes
  | .node _ _ c => c

/-- `node.attrib.get(key)`. -/
def attrGet (attrib : List (String × String)) (k : String) : Option String :=
  attrib.lookup k

/-- `node.attrib.get(key, default)`. -/
def attrGetD (attrib : List (String × String)) (k d : String) : String :=
  (attrGet attrib k).getD d

/-- Python `value or None` for an optional attribute: the empty string is
falsy and collapses to `None`. -/
def orNone : Option String → Option String
  | some s => if s = "" then none else some s
  | none => none

/-- `attrib.get(key) == "true"`. -/
def attrTrue (attrib : List (String × String)) (k : String) : Bool :=
  attrGet attrib k == some "true"

/-- The formatted reference ID `f"e{n}"`. -/
def refName (n : Nat) : String := "e" ++ Nat.repr n

/-- The element record built inside `_parse_hierarchy.traverse` for a node
with non-degenerate bounds.  `none` models the `ValueError` that
`int(attrib.get("index", 0))` raises on a malformed `index` attribute. -/
def mkElement (ref : String) (attrib : List (String × String))
    (bounds : Nat × Nat × Nat × Nat) : Option ElementInfo :=
  match (match attrGet attrib "index" with
         | none => some 0
         | some s => pyInt? s) with
  | none => none
  | some idx =>
    some { ref := ref
           class_name := attrGetD attrib "class" "node"
           bounds := bounds
           resource_id := orNone (attrGet attrib "resource-id")
           text := orNone (attrGet attrib "text")
           content_desc := orNone (attrGet attrib "content-desc")
           package := orNone (attrGet attrib "package")
           clickable := attrTrue attrib "clickable"
           focusable := attrTrue attrib "focusable"
           enabled := attrGetD attrib "enabled" "true" == "true"
           checked := match attrGet attrib "checked" with
                      | some v => some (v == "true")
                      | none => none
           selected := attrTrue attrib "selected"
           scrollable := attrTrue attrib "scrollable"
           long_clickable := attrTrue attrib "long-clickable"
           index := idx }

/-- The parsed bounds of a node (`_parse_bounds(attrib.get("bounds", "[0,0][0,0]"))`). -/
def XNode.boundsOf (n : XNode) : Nat × Nat × Nat × Nat :=
  parseBounds (attrGetD n.attribOf "bounds" "[0,0][0,0]")

/- `_parse_hierarchy.traverse`: depth-first pre-order walk assigning
sequential refs to nodes with non-degenerate bounds; children of degenerate
nodes are still visited.  Returns the updated counter and refs dict, or
`none` if element construction raised. -/
mutual
def traverseNode : XNode → Nat → List (String × ElementInfo) →
    Option (Nat × List (String × ElementInfo))
  | .node _tag attrib children, ctr, refs =>
    let bounds := parseBounds (attrGetD attrib "bounds" "[0,0][0,0]")
    if bounds ≠ (0, 0, 0, 0) then
      match mkElement (refName ctr) attrib bounds with
      | none => none
      | some element => traverseNodes children (ctr + 1) (dictSet refs (refName ctr) element)
    else
      traverseNodes children ctr refs
def traverseNodes : XNodes → Nat → List (String × ElementInfo) →
    Option (Nat × List (String × ElementInfo))
  | .nil, ctr, refs => some (ctr, refs)
  | .cons n ns, ctr, refs =>
    match traverseNode n ctr refs with
    | none => none
    | some (ctr1, refs1) => traverseNodes ns ctr1 refs1
end

/-! ### Raw dumps and the error taxonomy -/

/-- Outcome of the hardened XML library parse (`defusedxml`/`xml.etree`
`fromstring`) on a raw dump string; this is external library behaviour, so a
raw dump is characterised by what the library yields on it. -/
inductive XLibError where
  | parseError (msg : String)
  | securityReject (msg : String)
  deriving DecidableEq, Repr

abbrev RawDump := Except XLibError XNode

/-- Error sum mirroring the exception classes of `src/core/exceptions.py`
(plus `malformedInput` for the builtin `ValueError` raised by
`_parse_hierarchy`). -/
inductive AgentError where
  | invalidDeviceId (device_id : String)
  | deviceNotFound (device_id : Option String)
  | deviceConnection (device_id : String) (reason : String)
  | malformedInput (msg : String)
  | staleRef (ref : String) (snapshot_age_seconds : Int)
  | refNotFound (ref : String) (available_refs : List String)
  deriving DecidableEq, Repr

/-- `SnapshotManager._parse_hierarchy`: run the hardened library parse, walk
the tree (skipping a literal `<hierarchy>` root), and convert every failure —
`ET.ParseError`, a security rejection, or an exception inside the traversal —
into the `ValueError` modelled by `AgentError.malformedInput`. -/
def parseHierarchy (xml_content : RawDump) : Except AgentError (List (String × ElementInfo)) :=
  match xml_content with
  | .error (.parseError msg) =>
    .error (.malformedInput ("Invalid XML: " ++ msg))
  | .error (.securityReject msg) =>
    .error (.malformedInput ("Invalid or potentially malicious XML: " ++ msg))
  | .ok root =>
    match (if root.tagOf == "hierarchy"
           then traverseNodes root.childrenOf 0 []
           else traverseNode root 0 []) with
    | none => .error (.malformedInput "Invalid or potentially malicious XML: invalid literal for int()")
    | some (_, refs) => .ok refs

/-! ### Snapshot and SnapshotManager (`ref_system.py`) -/

structure Snapshot where
  snapshot_id : String
  device_id : String
  package : String
  activity : String
  timestamp : Int
  screen_size : Nat × Nat
  refs : List (String × ElementInfo) := []
  xml_hash : String := ""
  deriving DecidableEq, Repr

/-- `Snapshot.is_stale`: `time.time() - timestamp > max_age_seconds`. -/
def Snapshot.is_stale (s : Snapshot) (max_age_seconds : Int) (now : Int) : Bool :=
  decide (now - s.timestamp > max_age_seconds)

/-- `Snapshot.age_seconds`. -/
def Snapshot.age_seconds (s : Snapshot) (now : Int) : Int :=
  now - s.timestamp

/-- `Snapshot.get_element`. -/
def Snapshot.get_element (s : Snapshot) (ref : String) : Option ElementInfo :=
  s.refs.lookup ref

structure SnapshotManager where
  snapshots : List (String × List (String × Snapshot)) := []
  snapshot_order : List (String × List String) := []
  current : List (String × String) := []
  max_snapshots : Int := 5
  default_stale_seconds : Int := 30
  deriving DecidableEq, Repr

/-- A freshly constructed `SnapshotManager()` with its default parameters. -/
def snapInit : SnapshotManager := {}

/-- `f"{device_id}_{int(time.time() * 1000)}_{uuid.uuid4().hex[:8]}"`, with
the time and the uuid hex supplied by the caller. -/
def mkSnapshotId (device_id : String) (now : Int) (uuidHex : String) : String :=
  device_id ++ "_" ++ (now * 1000).repr ++ "_" ++ uuidHex.take 8

/-- Placeholder for `hashlib.md5(xml_content.encode()).hexdigest()`; the
digest is external library output and no claim depends on it. -/
def md5Hex (_xml_content : RawDump) : String := ""

/-- Python `max(a, b)` on two integers (returns `a` on ties, like Python). -/
def pyMaxInt (a b : Int) : Int := if a < b then b else a

/-- The cleanup loop of `create_snapshot`: `while len(order) > max_allowed`,
pop the head of the deque and drop that id from the snapshot dict. -/
def evictLoop (max_allowed : Int) :
    List String → List (String × Snapshot) → List String × List (String × Snapshot)
  | [], snaps => ([], snaps)
  | old_id :: rest, snaps =>
    if ((old_id :: rest).length : Int) > max_allowed then
      evictLoop max_allowed rest (dictPop snaps old_id)
    else (old_id :: rest, snaps)

/-- `SnapshotManager.create_snapshot`.  Returns the outcome together with the
whole post-state, so that the effect of a failing call on the manager is part
of the specification.  `now` models both `time.time()` reads and `uuidHex`
the `uuid4()` draw. -/
def createSnapshot (m : SnapshotManager) (device_id : String) (xml_content : RawDump)
    (package activity : String) (screen_size : Nat × Nat) (now : Int) (uuidHex : String) :
    Except AgentError Snapshot × SnapshotManager :=
  match parseHierarchy xml_content with
  | .error e => (.error e, m)
  | .ok refs =>
    let snapshot_id := mkSnapshotId device_id now uuidHex
    let snapshot : Snapshot :=
      { snapshot_id := snapshot_id
        device_id := device_id
        package := package
        activity := activity
        timestamp := now
        screen_size := screen_size
        refs := refs
        xml_hash := md5Hex xml_content }
    let snaps0 := (m.snapshots.lookup device_id).getD []
    let order0 := (m.snapshot_order.lookup device_id).getD []
    let snaps1 := dictSet snaps0 snapshot_id snapshot
    let order1 := order0 ++ [snapshot_id]
    let max_allowed : Int := pyMaxInt 1 m.max_snapshots
    let trimmed := evictLoop max_allowed order1 snaps1
    (.ok snapshot,
      { m with
        snapshots := dictSet m.snapshots device_id trimmed.2
        snapshot_order := dictSet m.snapshot_order device_id trimmed.1
        current := dictSet m.current device_id snapshot_id })

/-- `SnapshotManager.get_current_snapshot` (`if not snapshot_id` also treats
an empty id as missing). -/
def getCurrentSnapshot (m : SnapshotManager) (device_id : String) : Option Snapshot :=
  match m.current.lookup device_id with
  | none => none
  | some snapshot_id =>
    if snapshot_id = "" then none
    else ((m.snapshots.lookup device_id).getD []).lookup snapshot_id

/-- `max_stale_seconds or self._default_stale_seconds`: Python `or` falls
back to the default when the argument is `None` or the falsy `0`. -/
def effectiveMaxAge (max_stale_seconds : Option Int) (default_stale : Int) : Int :=
  match max_stale_seconds with
  | none => default_stale
  | some x => if x = 0 then default_stale else x

/-- `SnapshotManager.resolve_ref`. -/
def resolveRef (m : SnapshotManager) (device_id ref : String)
    (validate_staleness : Bool) (max_stale_seconds : Option Int) (now : Int) :
    Except AgentError ElementInfo :=
  match getCurrentSnapshot m device_id with
  | none => .error (.refNotFound ref [])
  | some snapshot =>
    let elemStep : Except AgentError ElementInfo :=
      match snapshot.get_element ref with
      | none => .error (.refNotFound ref (snapshot.refs.map Prod.fst))
      | some element => .ok element
    if validate_staleness then
      let max_age := effectiveMaxAge max_stale_seconds m.default_stale_seconds
      if snapshot.is_stale max_age now then
        .error (.staleRef ref (snapshot.age_seconds now))
      else elemStep
    else elemStep

/-- `SnapshotManager.invalidate`. -/
def invalidate (m : SnapshotManager) (device_id : String) : SnapshotManager :=
  { m with
    snapshots := dictPop m.snapshots device_id
    snapshot_order := dictPop m.snapshot_order device_id
    current := dictPop m.current device_id }

/-! ### DeviceManager (`device_manager.py`) -/

/-- `MAX_CACHED_DEVICES`. -/
def MAX_CACHED_DEVICES : Nat := 5

/-- `CACHE_TTL_SECONDS`. -/
def CACHE_TTL_SECONDS : Int := 300

/-- `CachedDevice`: the opaque `u2.Device` handle is modelled as a numeric
token. -/
structure CachedDevice where
  device : Nat
  last_used : Int
  deriving DecidableEq, Repr

/-- `CachedDevice.is_expired`. -/
def CachedDevice.is_expired (c : CachedDevice) (ttl_seconds : Int) (now : Int) : Bool :=
  decide (now - c.last_used > ttl_seconds)

structure DeviceInfo where
  serial : String
  state : String
  model : Option String := none
  product : Option String := none
  transport_id : Option String := none
  deriving DecidableEq, Repr

/-- `DeviceInfo.is_available`. -/
def DeviceInfo.is_available (d : DeviceInfo) : Bool := d.state == "device"

/-- The character class `[a-zA-Z0-9._:-]` of `DEVICE_ID_PATTERN`. -/
def isAllowedIdChar (c : Char) : Bool :=
  ('a' ≤ c && c ≤ 'z') || ('A' ≤ c && c ≤ 'Z') || ('0' ≤ c && c ≤ '9') ||
  c = '.' || c = '_' || c = ':' || c = '-'

/-- `DEVICE_ID_PATTERN.match(s) is not None` for `^[a-zA-Z0-9._:-]+$`.
Python's `$` (without `re.MULTILINE`) also matches just before one newline at
the very end of the string, so `"abc\n"` matches. -/
def patternMatches (s : String) : Bool :=
  let l := s.data
  let core := if l.getLast? = some '\n' then l.dropLast else l
  !core.isEmpty && core.all isAllowedIdChar

/-- `MAX_DEVICE_ID_LENGTH`. -/
def MAX_DEVICE_ID_LENGTH : Nat := 255

/-- `validate_device_id`. -/
def validateDeviceId : Option String → Bool
  | none => true
  | some device_id =>
    if device_id.data.isEmpty || (pyStrip device_id.data).isEmpty then false
    else if device_id.data.length > MAX_DEVICE_ID_LENGTH then false
    else patternMatches device_id

structure DeviceManager where
  cache : List (String × CachedDevice) := []
  selected_device : Option String := none
  deriving DecidableEq, Repr

/-- A freshly constructed `DeviceManager()`. -/
def devInit : DeviceManager := {}

/-- `DeviceManager._cleanup_expired_cache`. -/
def cleanupExpiredCache (cache : List (String × CachedDevice)) (now : Int) :
    List (String × CachedDevice) :=
  cache.filter (fun p => !p.2.is_expired CACHE_TTL_SECONDS now)

/-- `min(cache.keys(), key=lambda k: cache[k].last_used)`: Python `min`
returns the first key attaining the minimum in iteration order. -/
def oldestKey : List (String × CachedDevice) → String
  | [] => ""
  | p :: rest => (rest.foldl (fun best q => if q.2.last_used < best.2.last_used then q else best) p).1

/-- `DeviceManager._evict_oldest_if_needed`. -/
def evictOldestIfNeeded (cache : List (String × CachedDevice)) :
    List (String × CachedDevice) :=
  if cache.length ≥ MAX_CACHED_DEVICES then dictPop cache (oldestKey cache)
  else cache

/-- `DeviceManager.resolve_device_id`. -/
def resolveDeviceId (m : DeviceManager) (device_id : Option String) : Option String :=
  match device_id with
  | some d => some d
  | none => m.selected_device

/-- `DeviceManager.select_device`: validate the format first, then consult
the external device listing (its outcome is an explicit argument), then
record the selection. -/
def selectDevice (m : DeviceManager) (device_id : String)
    (listing : List DeviceInfo) : Except AgentError DeviceManager :=
  if !validateDeviceId (some device_id) then
    .error (.invalidDeviceId device_id)
  else if !(listing.filter DeviceInfo.is_available).any (fun d => d.serial == device_id) then
    .error (.deviceNotFound (some device_id))
  else
    .ok { m with selected_device := some device_id }

/-- `DeviceManager.get_device` (the scoped acquisition).  External effects
are explicit arguments: `listing` is the `adb` device listing consulted only
on the default-device path, `connect_result` the outcome of `u2.connect`,
and `probe_ok` the `device.info` liveness probe.  Returns the yielded handle
and the post-state of the manager. -/
def getDevice (m : DeviceManager) (device_id : Option String) (now : Int)
    (listing : List DeviceInfo) (connect_result : Except String Nat) (probe_ok : Bool) :
    Except AgentError (Nat × DeviceManager) :=
  let resolved_id := resolveDeviceId m device_id
  if !validateDeviceId resolved_id then
    .error (.invalidDeviceId (resolved_id.getD ""))
  else
    let cache_key := resolved_id.getD "default"
    let cache1 := cleanupExpiredCache m.cache now
    let afterConnect : Except AgentError (List (String × CachedDevice)) :=
      match cache1.lookup cache_key with
      | some _ => .ok cache1
      | none =>
        if resolved_id = none && (listing.filter DeviceInfo.is_available).isEmpty then
          .error (.deviceNotFound none)
        else
          let cache2 := evictOldestIfNeeded cache1
          match connect_result with
          | .error msg => .error (.deviceConnection cache_key msg)
          | .ok handle => .ok (cache2 ++ [(cache_key, { device := handle, last_used := now })])
    match afterConnect with
    | .error e => .error e
    | .ok cache3 =>
      match cache3.lookup cache_key with
      | none => .error (.deviceConnection cache_key "missing cache entry")
      | some cached =>
        let cache4 := dictSet cache3 cache_key { cached with last_used := now }
        if probe_ok then
          .ok (cached.device, { m with cache := cache4 })
        else
          .error (.deviceConnection cache_key "Connection lost")

/-! ### Association-list lemmas -/

theorem lookup_dictSet_self {α : Type} (m : List (String × α)) (k : String) (v : α) :
    (dictSet m k v).lookup k = some v := by
  induction m with
  | nil => simp [dictSet, List.lookup]
  | cons p rest ih =>
    obtain ⟨k0, v0⟩ := p
    by_cases h : k0 = k
    · simp [dictSet, h, List.lookup]
    · have hbeq : (k == k0) = false := beq_false_of_ne (Ne.symm h)
      simp [dictSet, h, List.lookup, hbeq, ih]

theorem dictSet_of_not_mem {α : Type} (m : List (String × α)) (k : String) (v : α)
    (h : k ∉ m.map Prod.fst) : dictSet m k v = m ++ [(k, v)] := by
  induction m with
  | nil => rfl
  | cons p rest ih =>
    obtain ⟨k0, v0⟩ := p
    simp only [List.map_cons, List.mem_cons, not_or] at h
    simp [dictSet, Ne.symm h.1, ih h.2]

theorem dictPop_cons_self {α : Type} (k : String) (v : α) (rest : List (String × α)) :
    dictPop ((k, v) :: rest) k = rest := by
  simp [dictPop]

theorem lookup_of_mem_of_nodup {α : Type} (m : List (String × α)) (k : String) (v : α)
    (hmem : (k, v) ∈ m) (hnd : (m.map Prod.fst).Nodup) : m.lookup k = some v := by
  induction m with
  | nil => simp at hmem
  | cons p rest ih =>
    obtain ⟨k0, v0⟩ := p
    simp only [List.map_cons, List.nodup_cons] at hnd
    rcases List.mem_cons.mp hmem with h | h
    · injection h with hk hv
      subst hk; subst hv
      simp [List.lookup]
    · have hk : k0 ≠ k := by
        rintro rfl
        exact hnd.1 (List.mem_map.mpr ⟨(k0, v), h, rfl⟩)
      have hbeq : (k == k0) = false := beq_false_of_ne (Ne.symm hk)
      simp [List.lookup, hbeq, ih h hnd.2]

/-! ### Injectivity of the decimal ref tokens -/

/-- Specification-side decimal printer: the digits of `n`, most significant
first. -/
def decDigits (n : Nat) : List Char :=
  if _h : n < 10 then [Nat.digitChar n]
  else decDigits (n / 10) ++ [Nat.digitChar (n % 10)]
termination_by n
decreasing_by exact Nat.div_lt_self (by omega) (by omega)

theorem toDigitsCore_eq_decDigits (fuel : Nat) :
    ∀ (n : Nat) (ds : List Char), n < fuel →
      Nat.toDigitsCore 10 fuel n ds = decDigits n ++ ds := by
  induction fuel with
  | zero => intro n ds h; omega
  | succ f ih =>
    intro n ds h
    by_cases h10 : n < 10
    · have hdiv : n / 10 = 0 := Nat.div_eq_of_lt h10
      have hmod : n % 10 = n := Nat.mod_eq_of_lt h10
      rw [Nat.toDigitsCore, decDigits]
      simp [hdiv, hmod, h10]
    · have hdiv : n / 10 ≠ 0 := by
        have : 0 < n / 10 := Nat.div_pos (by omega) (by omega)
        omega
      have hlt : n / 10 < f := by
        have h1 : n / 10 < n := Nat.div_lt_self (by omega) (by omega)
        omega
      rw [Nat.toDigitsCore, decDigits]
      simp only [hdiv, if_false, dif_neg h10]
      rw [ih (n / 10) _ hlt]
      simp

theorem digitsToNat_append_singleton (l : List Char) (c : Char) :
    digitsToNat (l ++ [c]) = digitsToNat l * 10 + (c.toNat - '0'.toNat) := by
  simp [digitsToNat, List.foldl_append]

theorem digitsToNat_decDigits (n : Nat) : digitsToNat (decDigits n) = n := by
  induction n using Nat.strong_induction_on with
  | _ n ih =>
    rw [decDigits]
    by_cases h : n < 10
    · simp only [dif_pos h]
      interval_cases n <;> rfl
    · simp only [dif_neg h]
      rw [digitsToNat_append_singleton]
      have hdiv : n / 10 < n := Nat.div_lt_self (by omega) (by omega)
      rw [ih (n / 10) hdiv]
      have hmod : n % 10 < 10 := Nat.mod_lt _ (by omega)
      have hval : (Nat.digitChar (n % 10)).toNat - '0'.toNat = n % 10 := by
        set r := n % 10 with hr
        interval_cases r <;> rfl
      rw [hval]
      omega

theorem natRepr_eq_decDigits (n : Nat) : Nat.repr n = (decDigits n).asString := by
  rw [Nat.repr, Nat.toDigits, toDigitsCore_eq_decDigits (n + 1) n [] (Nat.lt_succ_self n)]
  simp

theorem natRepr_injective : Function.Injective Nat.repr := by
  intro m n h
  rw [natRepr_eq_decDigits, natRepr_eq_decDigits] at h
  have hdata : decDigits m = decDigits n := by
    have := congrArg String.data h
    simpa [List.asString] using this
  have := congrArg digitsToNat hdata
  rwa [digitsToNat_decDigits, digitsToNat_decDigits] at this

theorem refName_injective : Function.Injective refName := by
  intro m n h
  apply natRepr_injective
  have hdata := congrArg String.data h
  rw [refName, refName, String.data_append, String.data_append] at hdata
  have hrd : (Nat.repr m).data = (Nat.repr n).data := List.append_cancel_left hdata
  exact congrArg String.mk hrd

/-! ### Specification-side view of the traversal

`preGoodN n` lists, in depth-first pre-order document order, the nodes of the
subtree rooted at `n` whose bounds are non-degenerate (children of degenerate
nodes included); `labelGood c` assigns them the refs `e c, e (c+1), …` exactly
as the traversal counter does. -/

mutual
def preGoodN : XNode → List XNode
  | .node t a cs =>
    (if parseBounds (attrGetD a "bounds" "[0,0][0,0]") ≠ (0, 0, 0, 0)
     then [XNode.node t a cs] else []) ++ preGoodNs cs
def preGoodNs : XNodes → List XNode
  | .nil => []
  | .cons n ns => preGoodN n ++ preGoodNs ns
end

def labelGood : Nat → List XNode → Option (List (String × ElementInfo))
  | _, [] => some []
  | c, n :: gs =>
    match mkElement (refName c) n.attribOf n.boundsOf with
    | none => none
    | some el => (labelGood (c + 1) gs).map (fun l => (refName c, el) :: l)

/-- The traversed good nodes of a whole document: a literal `<hierarchy>`
root contributes only its children, any other root is itself traversed. -/
def docGoods (root : XNode) : List XNode :=
  if root.tagOf == "hierarchy" then preGoodNs root.childrenOf else preGoodN root

theorem labelGood_append (xs ys : List XNode) : ∀ c : Nat,
    labelGood c (xs ++ ys) =
      (labelGood c xs).bind (fun lx => (labelGood (c + xs.length) ys).map (fun ly => lx ++ ly)) := by
  induction xs with
  | nil =>
    intro c
    cases hy : labelGood c ys with
    | none => simp [labelGood, hy]
    | some ly => simp [labelGood, hy]
  | cons n gs ih =>
    intro c
    simp only [List.cons_append, labelGood, List.append_eq]
    cases hm : mkElement (refName c) n.attribOf n.boundsOf with
    | none => rfl
    | some el =>
      rw [ih (c + 1)]
      cases hx : labelGood (c + 1) gs with
      | none => rfl
      | some lx =>
        have harith : c + 1 + gs.length = c + (gs.length + 1) := by omega
        cases hy : labelGood (c + 1 + gs.length) ys with
        | none => simp [List.length_cons, ← harith, hy]
        | some ly => simp [List.length_cons, ← harith, hy]

theorem labelGood_keys : ∀ (gs : List XNode) (c : Nat) (l : List (String × ElementInfo)),
    labelGood c gs = some l → l.map Prod.fst = (List.range' c gs.length).map refName := by
  intro gs
  induction gs with
  | nil =>
    intro c l h
    simp [labelGood] at h
    simp [← h]
  | cons n rest ih =>
    intro c l h
    simp only [labelGood] at h
    cases hm : mkElement (refName c) n.attribOf n.boundsOf with
    | none => rw [hm] at h; exact absurd h (by simp)
    | some el =>
      rw [hm] at h
      cases hx : labelGood (c + 1) rest with
      | none => rw [hx] at h; exact absurd h (by simp)
      | some lx =>
        rw [hx] at h
        simp only [Option.map_some', Option.some.injEq] at h
        subst h
        simp [List.range'_succ, ih (c + 1) lx hx]

theorem labelGood_mem : ∀ (gs : List XNode) (c : Nat) (l : List (String × ElementInfo)),
    labelGood c gs = some l → ∀ i (hi : i < gs.length),
      ∃ el, mkElement (refName (c + i)) (gs.get ⟨i, hi⟩).attribOf (gs.get ⟨i, hi⟩).boundsOf = some el ∧
        (refName (c + i), el) ∈ l := by
  intro gs
  induction gs with
  | nil => intro c l _ i hi; exact absurd hi (by simp)
  | cons n rest ih =>
    intro c l h i hi
    simp only [labelGood] at h
    cases hm : mkElement (refName c) n.attribOf n.boundsOf with
    | none => rw [hm] at h; exact absurd h (by simp)
    | some el =>
      rw [hm] at h
      cases hx : labelGood (c + 1) rest with
      | none => rw [hx] at h; exact absurd h (by simp)
      | some lx =>
        rw [hx] at h
        simp only [Option.map_some', Option.some.injEq] at h
        subst h
        cases i with
        | zero => exact ⟨el, by simpa using hm, by simp⟩
        | succ j =>
          have hj : j < rest.length := by simpa using hi
          obtain ⟨el2, hmk, hmem⟩ := ih (c + 1) lx hx j hj
          have harith : c + 1 + j = c + (j + 1) := by omega
          rw [harith] at hmk hmem
          exact ⟨el2, by simpa using hmk, by simp [hmem]⟩

/-! ### The traversal computes exactly the labelled good-node list -/

mutual
theorem traverseNode_eq (n : XNode) : ∀ (c : Nat) (acc : List (String × ElementInfo)),
    (∀ k ∈ acc.map Prod.fst, ∃ j, j < c ∧ k = refName j) →
    traverseNode n c acc =
      (labelGood c (preGoodN n)).map (fun l => (c + (preGoodN n).length, acc ++ l)) := by
  match n with
  | .node t a cs =>
    intro c acc hacc
    simp only [traverseNode, preGoodN]
    by_cases hb : parseBounds (attrGetD a "bounds" "[0,0][0,0]") ≠ (0, 0, 0, 0)
    · simp only [if_pos hb]
      cases hm : mkElement (refName c) a (parseBounds (attrGetD a "bounds" "[0,0][0,0]")) with
      | none =>
        have hm2 : mkElement (refName c) (XNode.node t a cs).attribOf (XNode.node t a cs).boundsOf = none := hm
        simp [labelGood, hm2]
      | some el =>
        have hfresh : refName c ∉ acc.map Prod.fst := by
          intro hk
          obtain ⟨j, hj, hje⟩ := hacc _ hk
          exact absurd (refName_injective hje.symm) (by omega)
        show traverseNodes cs (c + 1) (dictSet acc (refName c) el) = _
        rw [dictSet_of_not_mem acc (refName c) el hfresh]
        have hacc2 : ∀ k ∈ (acc ++ [(refName c, el)]).map Prod.fst, ∃ j, j < c + 1 ∧ k = refName j := by
          intro k hk
          simp only [List.map_append, List.mem_append, List.map_cons, List.map_nil,
            List.mem_singleton] at hk
          rcases hk with hk | hk
          · obtain ⟨j, hj, hje⟩ := hacc _ hk
            exact ⟨j, by omega, hje⟩
          · exact ⟨c, by omega, hk⟩
        rw [traverseNodes_eq cs (c + 1) (acc ++ [(refName c, el)]) hacc2]
        have hm2 : mkElement (refName c) (XNode.node t a cs).attribOf (XNode.node t a cs).boundsOf = some el := hm
        simp only [List.singleton_append, labelGood, hm2, List.append_eq, List.nil_append]
        cases hx : labelGood (c + 1) (preGoodNs cs) with
        | none => rfl
        | some lx =>
          simp only [Option.map_some', List.length_cons, Option.some.injEq, Prod.mk.injEq]
          constructor
          · omega
          · simp
    · simp only [if_neg hb]
      rw [traverseNodes_eq cs c acc hacc]
      simp
theorem traverseNodes_eq (ns : XNodes) : ∀ (c : Nat) (acc : List (String × ElementInfo)),
    (∀ k ∈ acc.map Prod.fst, ∃ j, j < c ∧ k = refName j) →
    traverseNodes ns c acc =
      (labelGood c (preGoodNs ns)).map (fun l => (c + (preGoodNs ns).length, acc ++ l)) := by
  match ns with
  | .nil =>
    intro c acc _
    simp [traverseNodes, preGoodNs, labelGood]
  | .cons n ns1 =>
    intro c acc hacc
    simp only [traverseNodes, preGoodNs]
    rw [traverseNode_eq n c acc hacc]
    rw [labelGood_append]
    cases hx : labelGood c (preGoodN n) with
    | none => rfl
    | some lx =>
      simp only [Option.map_some']
      have hacc2 : ∀ k ∈ (acc ++ lx).map Prod.fst,
          ∃ j, j < c + (preGoodN n).length ∧ k = refName j := by
        intro k hk
        simp only [List.map_append, List.mem_append] at hk
        rcases hk with hk | hk
        · obtain ⟨j, hj, hje⟩ := hacc _ hk
          exact ⟨j, by omega, hje⟩
        · rw [labelGood_keys (preGoodN n) c lx hx] at hk
          obtain ⟨mm, hmm, hme⟩ := List.mem_map.mp hk
          obtain ⟨i, hi, hieq⟩ := List.mem_range'.mp hmm
          exact ⟨mm, by omega, hme.symm⟩
      rw [traverseNodes_eq ns1 (c + (preGoodN n).length) (acc ++ lx) hacc2]
      cases hy : labelGood (c + (preGoodN n).length) (preGoodNs ns1) with
      | none => rfl
      | some ly =>
        simp only [Option.some_bind, Option.map_some', List.length_append, Option.some.injEq,
          Prod.mk.injEq]
        constructor
        · omega
        · simp
end

/-- `_parse_hierarchy` on a document the library parses successfully either
rejects the document or returns exactly the good-node labelling. -/
theorem parseHierarchy_ok_iff (root : XNode) (refs : List (String × ElementInfo)) :
    parseHierarchy (.ok root) = .ok refs ↔ labelGood 0 (docGoods root) = some refs := by
  have hroot : (if root.tagOf == "hierarchy"
      then traverseNodes root.childrenOf 0 []
      else traverseNode root 0 []) =
      (labelGood 0 (docGoods root)).map (fun l => (0 + (docGoods root).length, [] ++ l)) := by
    by_cases ht : root.tagOf == "hierarchy"
    · rw [if_pos ht]
      rw [traverseNodes_eq root.childrenOf 0 [] (by simp)]
      simp [docGoods, ht]
    · rw [if_neg ht]
      rw [traverseNode_eq root 0 [] (by simp)]
      simp [docGoods, ht]
  constructor
  · intro h
    simp only [parseHierarchy] at h
    rw [hroot] at h
    cases hx : labelGood 0 (docGoods root) with
    | none => rw [hx] at h; simp at h
    | some lx =>
      rw [hx] at h
      simp only [Option.map_some', List.nil_append] at h
      simp only [Except.ok.injEq] at h
      rw [← h]
  · intro h
    simp only [parseHierarchy]
    rw [hroot, h]
    simp

theorem parseHierarchy_keys_nodup (root : XNode) (refs : List (String × ElementInfo))
    (h : parseHierarchy (.ok root) = .ok refs) : (refs.map Prod.fst).Nodup := by
  have hl := (parseHierarchy_ok_iff root refs).mp h
  rw [labelGood_keys _ 0 _ hl]
  exact (List.nodup_range' 0 (docGoods root).length).map refName_injective

theorem mkElement_bounds (r : String) (attrib : List (String × String))
    (b : Nat × Nat × Nat × Nat) (el : ElementInfo)
    (h : mkElement r attrib b = some el) : el.bounds = b := by
  simp only [mkElement] at h
  cases hidx : (match attrGet attrib "index" with
                | none => some 0
                | some s => pyInt? s) with
  | none => rw [hidx] at h; simp at h
  | some idx =>
    rw [hidx] at h
    simp only [Option.some.injEq] at h
    rw [← h]

theorem mkSnapshotId_ne_empty (d : String) (now : Int) (u : String) :
    mkSnapshotId d now u ≠ "" := by
  intro h
  have hlen := congrArg String.length h
  simp only [mkSnapshotId, String.length_append] at hlen
  have h1 : ("_" : String).length = 1 := rfl
  have h0 : ("" : String).length = 0 := rfl
  rw [h1, h0] at hlen
  omega

/-! ### Sample documents (the spec's Login-button scenario, plus a degenerate
node with a traversed child) -/

def sampleDoc : XNode :=
  .node "hierarchy" [("rotation", "0")]
    (.cons (.node "node" [("bounds", "[0,0][0,0]"), ("class", "android.widget.FrameLayout")]
      (.cons (.node "node" [("bounds", "[100,200][300,280]"), ("class", "android.widget.Button"),
                            ("text", "Login"), ("clickable", "true")] .nil) .nil))
     (.cons (.node "node" [("bounds", "[0,300][1080,400]"), ("text", "")] .nil) .nil))

def el0 : ElementInfo :=
  { ref := "e0", class_name := "android.widget.Button",
    bounds := (100, 200, 300, 280), text := some "Login", clickable := true }

def el1 : ElementInfo :=
  { ref := "e1", class_name := "node", bounds := (0, 300, 1080, 400) }

def sampleRefs : List (String × ElementInfo) := [("e0", el0), ("e1", el1)]

/-! ### Claim C1 -/

/-- C1: for every valid UI-hierarchy document, the reference table assigns
reference IDs exactly e0 … e(n-1) where n is the number of traversed nodes
with non-degenerate bounds, in depth-first pre-order left-to-right document
order; degenerate-bounds nodes are omitted from the mapping but their
children are still visited and numbered (the latter is captured by
`docGoods`/`preGoodN`, which recurse into the children of degenerate nodes,
and by the labelling equation `labelGood`). -/
theorem C1_ref_ids_exactly_range (root : XNode) (refs : List (String × ElementInfo))
    (hvalid : parseHierarchy (.ok root) = .ok refs) :
    refs.map Prod.fst = (List.range (docGoods root).length).map refName ∧
    labelGood 0 (docGoods root) = some refs := by
  have hl := (parseHierarchy_ok_iff root refs).mp hvalid
  refine ⟨?_, hl⟩
  rw [labelGood_keys (docGoods root) 0 refs hl, List.range_eq_range']

/-- C1 witness: the sample document has a degenerate root container whose
child is still numbered `e0`, and the ids are exactly `e0, e1`. -/
theorem C1_ref_ids_exactly_range_witness :
    parseHierarchy (.ok sampleDoc) = .ok sampleRefs ∧
    (sampleRefs.map Prod.fst = (List.range (docGoods sampleDoc).length).map refName ∧
     labelGood 0 (docGoods sampleDoc) = some sampleRefs) :=
  ⟨rfl, C1_ref_ids_exactly_range sampleDoc sampleRefs rfl⟩

/-! ### Claim C8 -/

/-- C8: round-trip — for every valid hierarchy document and every reference
ID assigned by `create_snapshot` from it (the i-th id, `refName i`),
`resolve_ref` at the creation time returns a descriptor whose bounds are the
parsed bounds of the i-th traversed non-degenerate node of the source
document and whose center is the midpoint of those bounds. -/
theorem C8_roundtrip_center (d pkg act : String) (scr : Nat × Nat) (now : Int) (uu : String)
    (root : XNode) (refs : List (String × ElementInfo))
    (hvalid : parseHierarchy (.ok root) = .ok refs)
    (i : Nat) (hi : i < (docGoods root).length) :
    ∃ el, resolveRef (createSnapshot snapInit d (.ok root) pkg act scr now uu).2
        d (refName i) true none now = .ok el ∧
      el.bounds = ((docGoods root).get ⟨i, hi⟩).boundsOf ∧
      el.center = ((((docGoods root).get ⟨i, hi⟩).boundsOf.1 +
                    ((docGoods root).get ⟨i, hi⟩).boundsOf.2.2.1) / 2,
                   (((docGoods root).get ⟨i, hi⟩).boundsOf.2.1 +
                    ((docGoods root).get ⟨i, hi⟩).boundsOf.2.2.2) / 2) := by
  have hl := (parseHierarchy_ok_iff root refs).mp hvalid
  obtain ⟨el, hmk, hmem⟩ := labelGood_mem (docGoods root) 0 refs hl i hi
  have hnodup := parseHierarchy_keys_nodup root refs hvalid
  have hlookup : refs.lookup (refName i) = some el := by
    have := lookup_of_mem_of_nodup refs (refName (0 + i)) el hmem hnodup
    simpa using this
  refine ⟨el, ?_, ?_, ?_⟩
  · set sid := mkSnapshotId d now uu with hsid
    set snapRec : Snapshot :=
      { snapshot_id := sid, device_id := d, package := pkg, activity := act,
        timestamp := now, screen_size := scr, refs := refs, xml_hash := "" } with hsnap
    have hcreate : (createSnapshot snapInit d (.ok root) pkg act scr now uu).2 =
        { snapshots := [(d, [(sid, snapRec)])],
          snapshot_order := [(d, [sid])],
          current := [(d, sid)] } := by
      simp only [createSnapshot]
      rw [hvalid]
      rfl
    rw [hcreate]
    simp only [resolveRef, getCurrentSnapshot, List.lookup_cons_self]
    rw [if_neg (mkSnapshotId_ne_empty d now uu)]
    simp only [List.lookup_cons_self, Option.getD_some, Snapshot.get_element, hsnap,
      hlookup, Snapshot.is_stale, effectiveMaxAge, Snapshot.age_seconds]
    have hstale : (decide (now - now > (30 : Int))) = false := by
      simp only [decide_eq_false_iff_not]
      omega
    simp [hstale]
  · have harith : (0 : Nat) + i = i := by omega
    rw [harith] at hmk
    exact mkElement_bounds _ _ _ el hmk
  · have harith : (0 : Nat) + i = i := by omega
    rw [harith] at hmk
    have hb := mkElement_bounds _ _ _ el hmk
    rw [ElementInfo.center, hb]

/-- C8 witness: on the sample document, ref `e0` resolves to the Login
button whose source bounds are `[100,200][300,280]`, with center
`(200, 240)`. -/
theorem C8_roundtrip_center_witness :
    parseHierarchy (.ok sampleDoc) = .ok sampleRefs ∧ 0 < (docGoods sampleDoc).length ∧
    (∃ el, resolveRef (createSnapshot snapInit "dev1" (.ok sampleDoc) "pkg" "act"
          (1080, 1920) 100 "abcdef12").2 "dev1" (refName 0) true none 100 = .ok el ∧
      el.bounds = ((docGoods sampleDoc).get ⟨0, by decide⟩).boundsOf ∧
      el.center = ((((docGoods sampleDoc).get ⟨0, by decide⟩).boundsOf.1 +
                    ((docGoods sampleDoc).get ⟨0, by decide⟩).boundsOf.2.2.1) / 2,
                   (((docGoods sampleDoc).get ⟨0, by decide⟩).boundsOf.2.1 +
                    ((docGoods sampleDoc).get ⟨0, by decide⟩).boundsOf.2.2.2) / 2)) :=
  ⟨rfl, by decide,
    C8_roundtrip_center "dev1" "pkg" "act" (1080, 1920) 100 "abcdef12" sampleDoc sampleRefs
      rfl 0 (by decide)⟩

/-! ### A concrete populated manager state (snapshot created at time 100) -/

def snapC2 : Snapshot :=
  { snapshot_id := "dev1_100000_abcdef12", device_id := "dev1", package := "pkg",
    activity := "act", timestamp := 100, screen_size := (1080, 1920),
    refs := sampleRefs, xml_hash := "" }

def stC2 : SnapshotManager :=
  { snapshots := [("dev1", [("dev1_100000_abcdef12", snapC2)])],
    snapshot_order := [("dev1", ["dev1_100000_abcdef12"])],
    current := [("dev1", "dev1_100000_abcdef12")] }

/-! ### Claim C2 -/

/-- C2: in `resolve_ref`, when the current snapshot exists and
`validate_staleness` is true, the staleness check precedes the presence
check: a stale snapshot fails with `StaleRef` carrying the actual age even
when the ref is present, and only a non-stale snapshot with the ref absent
fails with `RefNotFound` (carrying the available refs). -/
theorem C2_staleness_before_presence (m : SnapshotManager) (d ref : String)
    (snapshot : Snapshot) (hcur : getCurrentSnapshot m d = some snapshot)
    (mss : Int) (hm : mss ≠ 0) (now : Int) :
    (now - snapshot.timestamp > mss →
      resolveRef m d ref true (some mss) now =
        .error (.staleRef ref (now - snapshot.timestamp))) ∧
    (¬(now - snapshot.timestamp > mss) → snapshot.get_element ref = none →
      resolveRef m d ref true (some mss) now =
        .error (.refNotFound ref (snapshot.refs.map Prod.fst))) := by
  have hmax : effectiveMaxAge (some mss) m.default_stale_seconds = mss := by
    simp [effectiveMaxAge, hm]
  constructor
  · intro hstale
    have hb : snapshot.is_stale (effectiveMaxAge (some mss) m.default_stale_seconds) now = true := by
      rw [hmax]
      simp [Snapshot.is_stale, hstale]
    simp [resolveRef, hcur, hb, Snapshot.age_seconds]
  · intro hfresh habsent
    have hb : snapshot.is_stale (effectiveMaxAge (some mss) m.default_stale_seconds) now = false := by
      rw [hmax]
      simp [Snapshot.is_stale, hfresh]
    simp [resolveRef, hcur, hb, habsent]

/-- C2 witness: at time 120 the snapshot taken at time 100 with threshold 10
is stale (`StaleRef` with age 20) even though `e0` is present; with the ref
`zz` absent and threshold 100 it is `RefNotFound`. -/
theorem C2_staleness_before_presence_witness :
    (getCurrentSnapshot stC2 "dev1" = some snapC2 ∧ (10 : Int) ≠ 0 ∧
      ((120 : Int) - snapC2.timestamp > 10 →
        resolveRef stC2 "dev1" "e0" true (some 10) 120 =
          .error (.staleRef "e0" (120 - snapC2.timestamp)))) ∧
    (getCurrentSnapshot stC2 "dev1" = some snapC2 ∧ (100 : Int) ≠ 0 ∧
      (¬((120 : Int) - snapC2.timestamp > 100) → snapC2.get_element "zz" = none →
        resolveRef stC2 "dev1" "zz" true (some 100) 120 =
          .error (.refNotFound "zz" (snapC2.refs.map Prod.fst)))) :=
  ⟨⟨rfl, by decide,
    (C2_staleness_before_presence stC2 "dev1" "e0" snapC2 rfl 10 (by decide) 120).1⟩,
   ⟨rfl, by decide,
    (C2_staleness_before_presence stC2 "dev1" "zz" snapC2 rfl 100 (by decide) 120).2⟩⟩

/-! ### Claim C5 (corrected) -/

/-- C5 counterexample: resolving on a manager with no snapshot for the
device fails with the `RefNotFound` kind (the source raises
`RefNotFoundError(ref, [])`), not with a distinct `NoSnapshot` kind — no
such exception class exists in the source error taxonomy
(`AgentError` mirrors `src/core/exceptions.py`). -/
theorem C5_counterexample :
    resolveRef snapInit "dev1" "e0" true none 0 =
      .error (.refNotFound "e0" []) := rfl

/-- C5 amended: for every device with no current snapshot, `resolve_ref`
fails with a `RefNotFound` error carrying an empty available-refs list; this
is the same error kind as the ref-absent case, distinguishable only by the
empty list. -/
theorem C5_no_snapshot_is_refNotFound (m : SnapshotManager) (d ref : String)
    (validate : Bool) (ms : Option Int) (now : Int)
    (hnone : getCurrentSnapshot m d = none) :
    resolveRef m d ref validate ms now = .error (.refNotFound ref []) := by
  simp [resolveRef, hnone]

/-- C5 witness. -/
theorem C5_no_snapshot_is_refNotFound_witness :
    getCurrentSnapshot snapInit "d2" = none ∧
    resolveRef snapInit "d2" "e1" true none 5 = .error (.refNotFound "e1" []) :=
  ⟨rfl, C5_no_snapshot_is_refNotFound snapInit "d2" "e1" true none 5 rfl⟩

/-! ### Claim C6 -/

theorem parseHierarchy_error_malformed (xml : RawDump) (e : AgentError)
    (hx : parseHierarchy xml = .error e) : ∃ msg, e = .malformedInput msg := by
  match xml with
  | .error (.parseError m) =>
    simp only [parseHierarchy, Except.error.injEq] at hx
    exact ⟨_, hx.symm⟩
  | .error (.securityReject m) =>
    simp only [parseHierarchy, Except.error.injEq] at hx
    exact ⟨_, hx.symm⟩
  | .ok root =>
    simp only [parseHierarchy] at hx
    cases ht : (if root.tagOf == "hierarchy"
        then traverseNodes root.childrenOf 0 []
        else traverseNode root 0 []) with
    | none =>
      rw [ht] at hx
      simp only [Except.error.injEq] at hx
      exact ⟨_, hx.symm⟩
    | some p =>
      rw [ht] at hx
      simp at hx

/-- C6: for every raw dump the hardened parser rejects (a parse error or a
security rejection) — equivalently whenever `_parse_hierarchy` fails —
`create_snapshot` fails with the `MalformedInput` error kind (the
`ValueError` of the source), never with the XML library's own exception type
(`XLibError`, which cannot even inhabit the result type). -/
theorem C6_malformed_input (m : SnapshotManager) (d pkg act : String) (scr : Nat × Nat)
    (now : Int) (uu : String) (xml : RawDump) (err : AgentError)
    (hx : parseHierarchy xml = .error err) :
    ∃ msg, (createSnapshot m d xml pkg act scr now uu).1 =
      .error (.malformedInput msg) := by
  obtain ⟨msg, hmsg⟩ := parseHierarchy_error_malformed xml err hx
  subst hmsg
  exact ⟨msg, by simp [createSnapshot, hx]⟩

/-- C6 witness: a dump the library rejects as a parse error. -/
theorem C6_malformed_input_witness :
    parseHierarchy (.error (.parseError "bad token")) =
        .error (.malformedInput "Invalid XML: bad token") ∧
    ∃ msg, (createSnapshot snapInit "dev1" (.error (.parseError "bad token"))
        "pkg" "act" (1080, 1920) 100 "abcdef12").1 = .error (.malformedInput msg) :=
  ⟨rfl, C6_malformed_input snapInit "dev1" "pkg" "act" (1080, 1920) 100 "abcdef12"
    (.error (.parseError "bad token")) (.malformedInput "Invalid XML: bad token") rfl⟩

/-! ### Claim C9 -/

/-- C9: atomicity of `create_snapshot` on failure — for every manager state
and every raw dump whose parsing fails, the call returns the parse error and
the manager state completely unchanged (no history entry, no eviction, no
current-pointer update). -/
theorem C9_failed_create_is_atomic (m : SnapshotManager) (d pkg act : String)
    (scr : Nat × Nat) (now : Int) (uu : String) (xml : RawDump) (err : AgentError)
    (hx : parseHierarchy xml = .error err) :
    createSnapshot m d xml pkg act scr now uu = (.error err, m) := by
  simp [createSnapshot, hx]

/-- C9 witness: a security-rejected dump on a populated manager leaves the
state bit-for-bit identical. -/
theorem C9_failed_create_is_atomic_witness :
    parseHierarchy (.error (.securityReject "entity expansion")) =
        .error (.malformedInput "Invalid or potentially malicious XML: entity expansion") ∧
    createSnapshot stC2 "dev1" (.error (.securityReject "entity expansion"))
        "pkg" "act" (1080, 1920) 200 "99999999" =
      (.error (.malformedInput "Invalid or potentially malicious XML: entity expansion"), stC2) :=
  ⟨rfl, C9_failed_create_is_atomic stC2 "dev1" "pkg" "act" (1080, 1920) 200 "99999999"
    (.error (.securityReject "entity expansion"))
    (.malformedInput "Invalid or potentially malicious XML: entity expansion") rfl⟩

/-! ### Claim C10 (corrected) -/

/-- C10 counterexample: `max_stale_seconds = -1` is not replaced by the
default threshold 30 — it takes effect as the threshold even though it is
not strictly greater than 0, making a zero-age snapshot stale, whereas the
default threshold resolves it. -/
theorem C10_counterexample :
    effectiveMaxAge (some (-1)) 30 = -1 ∧ ¬((-1 : Int) > 0) ∧
    resolveRef stC2 "dev1" "e0" true (some (-1)) 100 = .error (.staleRef "e0" 0) ∧
    resolveRef stC2 "dev1" "e0" true none 100 = .ok el0 :=
  ⟨rfl, by decide, rfl, rfl⟩

/-- C10 amended: passing `0` or `None` as `max_stale_seconds` falls back to
the manager's default staleness threshold; every nonzero value — including
negative ones — takes effect as the threshold. -/
theorem C10_falsy_max_stale_uses_default (dd : Int) :
    effectiveMaxAge none dd = dd ∧ effectiveMaxAge (some 0) dd = dd ∧
    (∀ x : Int, x ≠ 0 → effectiveMaxAge (some x) dd = x) ∧
    (∀ (m : SnapshotManager) (d ref : String) (now : Int),
      resolveRef m d ref true (some 0) now = resolveRef m d ref true none now) := by
  refine ⟨rfl, rfl, ?_, ?_⟩
  · intro x hx
    simp [effectiveMaxAge, hx]
  · intro m d ref now
    rfl

/-- C10 witness. -/
theorem C10_falsy_max_stale_uses_default_witness :
    (5 : Int) ≠ 0 ∧ effectiveMaxAge (some 5) 30 = 5 :=
  ⟨by decide, (C10_falsy_max_stale_uses_default 30).2.2.1 5 (by decide)⟩

/-! ### Claim C4: repeated snapshot creation and the bounded FIFO history -/

/-- One `create_snapshot` call's inputs: the raw dump plus the external
effects (`time.time()` and the uuid draw). -/
structure CreateArgs where
  xml : RawDump
  package : String
  activity : String
  screen : Nat × Nat
  now : Int
  uuid : String

def idOf (d : String) (a : CreateArgs) : String := mkSnapshotId d a.now a.uuid

def refsOf (a : CreateArgs) : List (String × ElementInfo) :=
  ((parseHierarchy a.xml).toOption).getD []

/-- The snapshot value `create_snapshot` builds for `a` (meaningful when the
dump parses). -/
def snapshotOfArgs (d : String) (a : CreateArgs) : Snapshot :=
  { snapshot_id := idOf d a, device_id := d, package := a.package,
    activity := a.activity, timestamp := a.now, screen_size := a.screen,
    refs := refsOf a, xml_hash := md5Hex a.xml }

def entryOf (d : String) (a : CreateArgs) : String × Snapshot :=
  (idOf d a, snapshotOfArgs d a)

def createOne (m : SnapshotManager) (d : String) (a : CreateArgs) : SnapshotManager :=
  (createSnapshot m d a.xml a.package a.activity a.screen a.now a.uuid).2

def createMany (m : SnapshotManager) (d : String) : List CreateArgs → SnapshotManager
  | [] => m
  | a :: rest => createMany (createOne m d a) d rest

/-- The suffix of creations surviving the FIFO eviction, step by step. -/
def survive (mx : Nat) : List CreateArgs → List CreateArgs → List CreateArgs
  | S, [] => S
  | S, a :: rest => survive mx (if S.length = mx then S.tail ++ [a] else S ++ [a]) rest

theorem map_fst_entryOf (d : String) (S : List CreateArgs) :
    (S.map (entryOf d)).map Prod.fst = S.map (idOf d) := by
  rw [List.map_map]; rfl

theorem evictLoop_of_le (maxA : Int) (dq : List String) (snaps : List (String × Snapshot))
    (h : (dq.length : Int) ≤ maxA) : evictLoop maxA dq snaps = (dq, snaps) := by
  cases dq with
  | nil => rfl
  | cons x rest => rw [evictLoop, if_neg (by omega)]

theorem createOne_step (m : SnapshotManager) (d : String) (a : CreateArgs)
    (mx : Nat) (hmx : 1 ≤ mx) (hmax : pyMaxInt 1 m.max_snapshots = (mx : Int))
    (S : List CreateArgs)
    (hvalid : (parseHierarchy a.xml).isOk = true)
    (hS : ((m.snapshots.lookup d).getD []) = S.map (entryOf d))
    (hO : ((m.snapshot_order.lookup d).getD []) = S.map (idOf d))
    (hlen : S.length ≤ mx)
    (hfresh : idOf d a ∉ S.map (idOf d)) :
    (((createOne m d a).snapshots.lookup d).getD [] =
        (if S.length = mx then S.tail ++ [a] else S ++ [a]).map (entryOf d)) ∧
    (((createOne m d a).snapshot_order.lookup d).getD [] =
        (if S.length = mx then S.tail ++ [a] else S ++ [a]).map (idOf d)) ∧
    ((createOne m d a).current.lookup d = some (idOf d a)) ∧
    ((createOne m d a).max_snapshots = m.max_snapshots) ∧
    ((if S.length = mx then S.tail ++ [a] else S ++ [a]).length ≤ mx) := by
  obtain ⟨refs, hrefs⟩ : ∃ refs, parseHierarchy a.xml = .ok refs := by
    cases hp : parseHierarchy a.xml with
    | ok r => exact ⟨r, rfl⟩
    | error e => rw [hp] at hvalid; simp [Except.isOk, Except.toBool] at hvalid
  have hshape : createOne m d a =
      { m with
        snapshots := dictSet m.snapshots d
          (evictLoop (pyMaxInt 1 m.max_snapshots)
            (((m.snapshot_order.lookup d).getD []) ++ [idOf d a])
            (dictSet ((m.snapshots.lookup d).getD []) (idOf d a) (snapshotOfArgs d a))).2
        snapshot_order := dictSet m.snapshot_order d
          (evictLoop (pyMaxInt 1 m.max_snapshots)
            (((m.snapshot_order.lookup d).getD []) ++ [idOf d a])
            (dictSet ((m.snapshots.lookup d).getD []) (idOf d a) (snapshotOfArgs d a))).1
        current := dictSet m.current d (idOf d a) } := by
    simp only [createOne, createSnapshot, hrefs, snapshotOfArgs, refsOf, idOf,
      Except.toOption, Option.getD_some]
  have hkeys : idOf d a ∉ (S.map (entryOf d)).map Prod.fst := by
    rw [map_fst_entryOf]; exact hfresh
  have hset : dictSet ((m.snapshots.lookup d).getD []) (idOf d a) (snapshotOfArgs d a) =
      (S ++ [a]).map (entryOf d) := by
    rw [hS, dictSet_of_not_mem _ _ _ hkeys, List.map_append]
    rfl
  have horder : ((m.snapshot_order.lookup d).getD []) ++ [idOf d a] =
      (S ++ [a]).map (idOf d) := by
    rw [hO, List.map_append]
    rfl
  by_cases hc : S.length = mx
  · cases S with
    | nil => simp at hc; omega
    | cons b S0 =>
      have hS0len : S0.length + 1 = mx := by simpa using hc
      have hev : evictLoop (pyMaxInt 1 m.max_snapshots)
          ((((b :: S0) : List CreateArgs) ++ [a]).map (idOf d))
          ((((b :: S0) : List CreateArgs) ++ [a]).map (entryOf d)) =
          ((S0 ++ [a]).map (idOf d), (S0 ++ [a]).map (entryOf d)) := by
        rw [hmax]
        have e1 : (((b :: S0) : List CreateArgs) ++ [a]).map (idOf d) =
            idOf d b :: (S0 ++ [a]).map (idOf d) := by simp
        have e2 : (((b :: S0) : List CreateArgs) ++ [a]).map (entryOf d) =
            (idOf d b, snapshotOfArgs d b) :: (S0 ++ [a]).map (entryOf d) := by
          simp [entryOf]
        rw [e1, e2, evictLoop, if_pos (by simp; omega)]
        rw [dictPop_cons_self]
        exact evictLoop_of_le _ _ _ (by simp; omega)
      refine ⟨?_, ?_, ?_, ?_, ?_⟩
      · rw [hshape]
        simp only [lookup_dictSet_self, Option.getD_some, hset, horder, hev, if_pos hc]
        simp
      · rw [hshape]
        simp only [lookup_dictSet_self, Option.getD_some, hset, horder, hev, if_pos hc]
        simp
      · rw [hshape]
        simp only [lookup_dictSet_self]
      · rw [hshape]
      · rw [if_pos hc]
        simp
        omega
  · have hlt : S.length < mx := by omega
    have hev : evictLoop (pyMaxInt 1 m.max_snapshots)
        ((S ++ [a]).map (idOf d)) ((S ++ [a]).map (entryOf d)) =
        ((S ++ [a]).map (idOf d), (S ++ [a]).map (entryOf d)) := by
      rw [hmax]
      exact evictLoop_of_le _ _ _ (by simp; omega)
    refine ⟨?_, ?_, ?_, ?_, ?_⟩
    · rw [hshape]
      simp only [lookup_dictSet_self, Option.getD_some, hset, horder, hev, if_neg hc]
    · rw [hshape]
      simp only [lookup_dictSet_self, Option.getD_some, hset, horder, hev, if_neg hc]
    · rw [hshape]
      simp only [lookup_dictSet_self]
    · rw [hshape]
    · rw [if_neg hc]
      simp
      omega

theorem createMany_inv (d : String) (mx : Nat) (hmx : 1 ≤ mx) :
    ∀ (L : List CreateArgs) (m : SnapshotManager) (S : List CreateArgs),
    pyMaxInt 1 m.max_snapshots = (mx : Int) →
    (∀ a ∈ L, (parseHierarchy a.xml).isOk = true) →
    (((S ++ L).map (idOf d)).Nodup) →
    (((m.snapshots.lookup d).getD []) = S.map (entryOf d)) →
    (((m.snapshot_order.lookup d).getD []) = S.map (idOf d)) →
    S.length ≤ mx →
    (((createMany m d L).snapshots.lookup d).getD [] = (survive mx S L).map (entryOf d)) ∧
    (((createMany m d L).snapshot_order.lookup d).getD [] = (survive mx S L).map (idOf d)) ∧
    ((survive mx S L).length ≤ mx) ∧
    ((createMany m d L).max_snapshots = m.max_snapshots) ∧
    ((createMany m d L).current.lookup d =
      (L.getLast?).elim (m.current.lookup d) (fun b => some (idOf d b))) := by
  intro L
  induction L with
  | nil =>
    intro m S h1 h2 h3 h4 h5 h6
    exact ⟨h4, h5, h6, rfl, rfl⟩
  | cons a rest ih =>
    intro m S h1 h2 h3 h4 h5 h6
    have hfresh : idOf d a ∉ S.map (idOf d) := by
      have hsplit : ((S.map (idOf d)) ++ ((a :: rest).map (idOf d))).Nodup := by
        rw [← List.map_append]; exact h3
      have hdisj := List.disjoint_of_nodup_append hsplit
      intro hmem
      exact hdisj hmem (by simp)
    have hva : (parseHierarchy a.xml).isOk = true := h2 a (by simp)
    obtain ⟨hs1, hs2, hs3, hs4, hs5⟩ := createOne_step m d a mx hmx h1 S hva h4 h5 h6 hfresh
    have hmaxp : pyMaxInt 1 (createOne m d a).max_snapshots = (mx : Int) := by
      rw [hs4]; exact h1
    have hrest : ∀ b ∈ rest, (parseHierarchy b.xml).isOk = true :=
      fun b hb => h2 b (by simp [hb])
    have hsub : List.Sublist
        (((if S.length = mx then S.tail ++ [a] else S ++ [a]) ++ rest).map (idOf d))
        ((S ++ (a :: rest)).map (idOf d)) := by
      apply List.Sublist.map
      by_cases hc : S.length = mx
      · rw [if_pos hc]
        have e : (S.tail ++ [a]) ++ rest = S.tail ++ (a :: rest) := by simp
        rw [e]
        exact (List.tail_sublist S).append (List.Sublist.refl _)
      · rw [if_neg hc]
        have e : (S ++ [a]) ++ rest = S ++ (a :: rest) := by simp
        rw [e]
    have hnodup1 : (((if S.length = mx then S.tail ++ [a] else S ++ [a]) ++ rest).map (idOf d)).Nodup :=
      List.Nodup.sublist hsub h3
    obtain ⟨g1, g2, g3, g4, g5⟩ := ih (createOne m d a)
      (if S.length = mx then S.tail ++ [a] else S ++ [a]) hmaxp hrest hnodup1 hs1 hs2 hs5
    refine ⟨?_, ?_, ?_, ?_, ?_⟩
    · rw [show createMany m d (a :: rest) = createMany (createOne m d a) d rest from rfl]
      rw [show survive mx S (a :: rest) =
        survive mx (if S.length = mx then S.tail ++ [a] else S ++ [a]) rest from rfl]
      exact g1
    · rw [show createMany m d (a :: rest) = createMany (createOne m d a) d rest from rfl]
      rw [show survive mx S (a :: rest) =
        survive mx (if S.length = mx then S.tail ++ [a] else S ++ [a]) rest from rfl]
      exact g2
    · rw [show survive mx S (a :: rest) =
        survive mx (if S.length = mx then S.tail ++ [a] else S ++ [a]) rest from rfl]
      exact g3
    · rw [show createMany m d (a :: rest) = createMany (createOne m d a) d rest from rfl]
      rw [g4, hs4]
    · rw [show createMany m d (a :: rest) = createMany (createOne m d a) d rest from rfl]
      rw [g5, hs3]
      cases rest with
      | nil => rfl
      | cons b t =>
        rw [List.getLast?_cons_cons]
        cases hbt : ((b :: t).getLast?) with
        | none => simp at hbt
        | some x => rfl

theorem survive_eq_drop (mx : Nat) (hmx : 1 ≤ mx) :
    ∀ (L S : List CreateArgs), S.length ≤ mx →
    survive mx S L = (S ++ L).drop ((S ++ L).length - mx) := by
  intro L
  induction L with
  | nil =>
    intro S h
    have hz : (S ++ ([] : List CreateArgs)).length - mx = 0 := by simp; omega
    rw [hz]
    simp [survive]
  | cons a rest ih =>
    intro S h
    rw [show survive mx S (a :: rest) =
      survive mx (if S.length = mx then S.tail ++ [a] else S ++ [a]) rest from rfl]
    by_cases hc : S.length = mx
    · rw [if_pos hc]
      cases S with
      | nil => simp at hc; omega
      | cons b S0 =>
        have hS0 : S0.length + 1 = mx := by simpa using hc
        have hlen1 : (S0 ++ [a]).length ≤ mx := by simp; omega
        rw [show ((b :: S0) : List CreateArgs).tail = S0 from rfl]
        rw [ih (S0 ++ [a]) hlen1]
        have e1 : (S0 ++ [a]) ++ rest = S0 ++ (a :: rest) := by simp
        rw [e1]
        have e2 : (((b :: S0) : List CreateArgs) ++ a :: rest).length - mx =
            ((S0 ++ a :: rest).length - mx) + 1 := by
          simp
          omega
        rw [e2, List.cons_append, List.drop_succ_cons]
    · rw [if_neg hc]
      have hlen1 : (S ++ [a]).length ≤ mx := by simp; omega
      rw [ih (S ++ [a]) hlen1]
      have e1 : (S ++ [a]) ++ rest = S ++ (a :: rest) := by simp
      rw [e1]

/-- C4: for every device, every configured history maximum (taken as at
least 1 via `max(1, _)`) and every sequence of `mx + k` successful snapshot
creations for a device with no prior history, exactly `mx` snapshots remain,
they are the last `mx` created (the oldest `k` evicted first, FIFO), and
`get_current_snapshot` returns the snapshot of the most recent call. -/
theorem C4_history_bound (m0 : SnapshotManager) (d : String) (L : List CreateArgs)
    (mx k : Nat) (hmx : 1 ≤ mx)
    (hmax : pyMaxInt 1 m0.max_snapshots = (mx : Int))
    (hfreshS : m0.snapshots.lookup d = none)
    (hfreshO : m0.snapshot_order.lookup d = none)
    (hvalid : ∀ a ∈ L, (parseHierarchy a.xml).isOk = true)
    (hnodup : (L.map (idOf d)).Nodup)
    (hlen : L.length = mx + k) :
    (((createMany m0 d L).snapshot_order.lookup d).getD []).length = mx ∧
    ((createMany m0 d L).snapshot_order.lookup d).getD [] = (L.drop k).map (idOf d) ∧
    (((createMany m0 d L).snapshots.lookup d).getD []).map Prod.fst =
      (L.drop k).map (idOf d) ∧
    (∃ aN, L.getLast? = some aN ∧
      getCurrentSnapshot (createMany m0 d L) d = some (snapshotOfArgs d aN)) := by
  obtain ⟨g1, g2, g3, g4, g5⟩ := createMany_inv d mx hmx L m0 [] hmax hvalid
    (by simpa using hnodup) (by simp [hfreshS]) (by simp [hfreshO]) (by simp)
  have hdrop : survive mx [] L = L.drop k := by
    rw [survive_eq_drop mx hmx L [] (by simp)]
    simp [hlen]
  have hlast : ∃ aN, L.getLast? = some aN := by
    cases hL : L.getLast? with
    | some aN => exact ⟨aN, rfl⟩
    | none =>
      have : L = [] := by
        cases L with
        | nil => rfl
        | cons x xs => simp [List.getLast?_eq_getLast] at hL
      rw [this] at hlen
      simp at hlen
      omega
  obtain ⟨aN, haN⟩ := hlast
  have hdropne : L.drop k ≠ [] := by
    intro hcon
    have := congrArg List.length hcon
    simp [hlen] at this
    omega
  have hlastdrop : (L.drop k).getLast? = some aN := by
    conv at haN => rw [show L = L.take k ++ L.drop k from (List.take_append_drop k L).symm]
    rw [List.getLast?_append] at haN
    cases hkd : (L.drop k).getLast? with
    | some x => rw [hkd] at haN; simpa using haN
    | none =>
      exact absurd (List.getLast?_eq_none_iff.mp hkd) hdropne
  have hmemN : aN ∈ L.drop k := List.mem_of_getLast?_eq_some hlastdrop
  refine ⟨?_, ?_, ?_, aN, haN, ?_⟩
  · rw [g2, hdrop]
    simp [hlen]
  · rw [g2, hdrop]
  · rw [g1, hdrop, map_fst_entryOf]
  · rw [getCurrentSnapshot, g5, haN]
    have hne : idOf d aN ≠ "" := mkSnapshotId_ne_empty d aN.now aN.uuid
    simp only [Option.elim_some, if_neg hne]
    rw [g1, hdrop]
    have hnd : (((L.drop k).map (entryOf d)).map Prod.fst).Nodup := by
      rw [map_fst_entryOf]
      have : (L.drop k).map (idOf d) = (L.map (idOf d)).drop k := by
        rw [List.map_drop]
      rw [this]
      exact List.Nodup.sublist (List.drop_sublist k _) hnodup
    exact lookup_of_mem_of_nodup _ _ _ (List.mem_map.mpr ⟨aN, hmemN, rfl⟩) hnd

def c4Args1 : CreateArgs := ⟨.ok sampleDoc, "pkg", "act", (1080, 1920), 100, "aaaaaaaa"⟩

def c4Args2 : CreateArgs := ⟨.ok sampleDoc, "pkg", "act", (1080, 1920), 101, "bbbbbbbb"⟩

def c4Args3 : CreateArgs := ⟨.ok sampleDoc, "pkg", "act", (1080, 1920), 102, "cccccccc"⟩

def c4M0 : SnapshotManager := { max_snapshots := 2 }

def c4L : List CreateArgs := [c4Args1, c4Args2, c4Args3]

/-- C4 witness: three creations against a history maximum of 2 leave exactly
the last two snapshots, and the current snapshot is the third one. -/
theorem C4_history_bound_witness :
    pyMaxInt 1 c4M0.max_snapshots = ((2 : Nat) : Int) ∧
    c4M0.snapshots.lookup "dev1" = none ∧
    c4M0.snapshot_order.lookup "dev1" = none ∧
    (∀ a ∈ c4L, (parseHierarchy a.xml).isOk = true) ∧
    (c4L.map (idOf "dev1")).Nodup ∧
    c4L.length = 2 + 1 ∧
    ((((createMany c4M0 "dev1" c4L).snapshot_order.lookup "dev1").getD []).length = 2 ∧
     ((createMany c4M0 "dev1" c4L).snapshot_order.lookup "dev1").getD [] =
       (c4L.drop 1).map (idOf "dev1") ∧
     (((createMany c4M0 "dev1" c4L).snapshots.lookup "dev1").getD []).map Prod.fst =
       (c4L.drop 1).map (idOf "dev1") ∧
     (∃ aN, c4L.getLast? = some aN ∧
       getCurrentSnapshot (createMany c4M0 "dev1" c4L) "dev1" =
         some (snapshotOfArgs "dev1" aN))) :=
  ⟨rfl, rfl, rfl, by decide, by decide, rfl,
   C4_history_bound c4M0 "dev1" c4L 2 1 (by decide) rfl rfl rfl
     (by decide) (by decide) rfl⟩

/-! ### Claim C3: device connection cache eviction -/

theorem mem_dictPop {α : Type} (l : List (String × α)) (k : String) (p : String × α)
    (h : p ∈ dictPop l k) : p ∈ l := by
  induction l with
  | nil => simp [dictPop] at h
  | cons q rest ih =>
    obtain ⟨k0, v0⟩ := q
    by_cases hk : k0 = k
    · rw [dictPop, if_pos hk] at h
      exact List.mem_cons_of_mem _ h
    · rw [dictPop, if_neg hk] at h
      rcases List.mem_cons.mp h with h | h
      · rw [h]; simp
      · exact List.mem_cons_of_mem _ (ih h)

theorem lookup_dictPop_of_none {α : Type} (l : List (String × α)) (k k2 : String)
    (h : l.lookup k = none) : (dictPop l k2).lookup k = none := by
  rw [List.lookup_eq_none_iff] at h ⊢
  exact fun p hp => h p (mem_dictPop l k2 p hp)

theorem dictSet_append_self {α : Type} (l1 : List (String × α)) (k : String) (v0 v : α)
    (h : k ∉ l1.map Prod.fst) : dictSet (l1 ++ [(k, v0)]) k v = l1 ++ [(k, v)] := by
  induction l1 with
  | nil => simp [dictSet]
  | cons q rest ih =>
    obtain ⟨k0, w⟩ := q
    simp only [List.map_cons, List.mem_cons, not_or] at h
    simp only [List.cons_append, dictSet, if_neg (Ne.symm h.1), List.append_eq]
    rw [ih h.2]

/-- The first key attaining the minimal `last_used` (what Python's `min`
returns) is a member and is minimal. -/
theorem foldl_min_spec : ∀ (rest : List (String × CachedDevice)) (p : String × CachedDevice),
    (rest.foldl (fun best q => if q.2.last_used < best.2.last_used then q else best) p) ∈ p :: rest ∧
    (rest.foldl (fun best q => if q.2.last_used < best.2.last_used then q else best) p).2.last_used ≤
      p.2.last_used ∧
    ∀ q ∈ rest,
      (rest.foldl (fun best q => if q.2.last_used < best.2.last_used then q else best) p).2.last_used ≤
        q.2.last_used := by
  intro rest
  induction rest with
  | nil => intro p; exact ⟨by simp, le_refl _, by simp⟩
  | cons q rest ih =>
    intro p
    rw [List.foldl_cons]
    obtain ⟨hmem, hle, hall⟩ := ih (if q.2.last_used < p.2.last_used then q else p)
    have hle_p : (if q.2.last_used < p.2.last_used then q else p).2.last_used ≤ p.2.last_used := by
      by_cases hq : q.2.last_used < p.2.last_used
      · rw [if_pos hq]; omega
      · rw [if_neg hq]
    have hle_q : (if q.2.last_used < p.2.last_used then q else p).2.last_used ≤ q.2.last_used := by
      by_cases hq : q.2.last_used < p.2.last_used
      · rw [if_pos hq]
      · rw [if_neg hq]; omega
    refine ⟨?_, le_trans hle hle_p, ?_⟩
    · rcases List.mem_cons.mp hmem with h | h
      · rw [h]
        by_cases hq : q.2.last_used < p.2.last_used
        · rw [if_pos hq]; simp
        · rw [if_neg hq]; simp
      · simp [h]
    · intro r hr
      rcases List.mem_cons.mp hr with h | h
      · rw [h]; exact le_trans hle hle_q
      · exact hall r h

theorem oldestKey_spec (cache : List (String × CachedDevice)) (hne : cache ≠ []) :
    ∃ c, (oldestKey cache, c) ∈ cache ∧ ∀ p ∈ cache, c.last_used ≤ p.2.last_used := by
  cases cache with
  | nil => exact absurd rfl hne
  | cons p rest =>
    obtain ⟨hmem, hle, hall⟩ := foldl_min_spec rest p
    refine ⟨(rest.foldl (fun best q => if q.2.last_used < best.2.last_used then q else best) p).2,
      ?_, ?_⟩
    · rw [oldestKey]
      exact hmem
    · intro q hq
      rcases List.mem_cons.mp hq with h | h
      · rw [h]; exact le_trans hle (le_refl _)
      · exact hall q h

/-- C3 amended: when the cache holds exactly its capacity of five live,
non-expired entries and a scoped acquisition arrives for a distinct valid
device, exactly the first entry with minimal `last_used` (the LRU entry) is
evicted — every other entry survives in order — and the new connection is
appended.  (Without the freshness proviso the TTL purge can remove further
entries; see the counterexample.) -/
theorem C3_lru_eviction (m : DeviceManager) (dId : String) (now : Int)
    (listing : List DeviceInfo) (h : Nat)
    (hlen : m.cache.length = MAX_CACHED_DEVICES)
    (hfreshT : ∀ p ∈ m.cache, ¬(now - p.2.last_used > CACHE_TTL_SECONDS))
    (hval : validateDeviceId (some dId) = true)
    (hmiss : m.cache.lookup dId = none) :
    (∃ c, (oldestKey m.cache, c) ∈ m.cache ∧
      ∀ p ∈ m.cache, c.last_used ≤ p.2.last_used) ∧
    getDevice m (some dId) now listing (.ok h) true =
      .ok (h, { m with cache := dictPop m.cache (oldestKey m.cache) ++
        [(dId, { device := h, last_used := now })] }) := by
  have hne : m.cache ≠ [] := by
    intro hcon
    rw [hcon] at hlen
    simp [MAX_CACHED_DEVICES] at hlen
  refine ⟨oldestKey_spec m.cache hne, ?_⟩
  have hclean : cleanupExpiredCache m.cache now = m.cache := by
    rw [cleanupExpiredCache, List.filter_eq_self]
    intro p hp
    have := hfreshT p hp
    simp [CachedDevice.is_expired]
    omega
  have hevict : evictOldestIfNeeded m.cache = dictPop m.cache (oldestKey m.cache) := by
    rw [evictOldestIfNeeded, if_pos (by omega)]
  have hlook3 : (dictPop m.cache (oldestKey m.cache) ++
      [(dId, ({ device := h, last_used := now } : CachedDevice))]).lookup dId =
      some { device := h, last_used := now } := by
    rw [List.lookup_append, lookup_dictPop_of_none m.cache dId (oldestKey m.cache) hmiss]
    simp
  have hkeys : dId ∉ (dictPop m.cache (oldestKey m.cache)).map Prod.fst := by
    intro hk
    obtain ⟨p, hp, hpe⟩ := List.mem_map.mp hk
    have hpm := mem_dictPop _ _ _ hp
    rw [List.lookup_eq_none_iff] at hmiss
    have := hmiss p hpm
    rw [hpe] at this
    simp at this
  have htouch : dictSet (dictPop m.cache (oldestKey m.cache) ++
      [(dId, ({ device := h, last_used := now } : CachedDevice))]) dId
      { device := h, last_used := now } =
      dictPop m.cache (oldestKey m.cache) ++ [(dId, { device := h, last_used := now })] :=
    dictSet_append_self _ _ _ _ hkeys
  simp only [getDevice, resolveDeviceId, hval, Bool.not_true, Bool.false_eq_true, if_false,
    Option.getD_some, hclean, hmiss, hevict]
  have hsn : (decide (some dId = none)) = false := by simp
  simp only [hsn, Bool.false_and, Bool.false_eq_true, if_false]
  rw [hlook3]
  dsimp only
  simp [htouch]

/-- C3 counterexample: with the cache at capacity but two entries past the
300-second TTL, the acquisition for a sixth device removes both expired
entries (the TTL purge) and then stores the new one without LRU eviction:
entry `d2`, which is not the LRU entry `d1`, is gone afterwards — refuting
"evicts exactly the LRU entry, and no other entry". -/
def cex3 : DeviceManager :=
  { cache := [("d1", ⟨1, 50⟩), ("d2", ⟨2, 60⟩), ("d3", ⟨3, 200⟩),
              ("d4", ⟨4, 250⟩), ("d5", ⟨5, 300⟩)] }

def cex3After : DeviceManager :=
  { cache := [("d3", ⟨3, 200⟩), ("d4", ⟨4, 250⟩), ("d5", ⟨5, 300⟩), ("d6", ⟨7, 400⟩)] }

theorem C3_counterexample :
    cex3.cache.length = MAX_CACHED_DEVICES ∧
    oldestKey cex3.cache = "d1" ∧
    "d2" ≠ oldestKey cex3.cache ∧
    cex3.cache.lookup "d2" = some ⟨2, 60⟩ ∧
    getDevice cex3 (some "d6") 400 [] (.ok 7) true = .ok (7, cex3After) ∧
    cex3After.cache.lookup "d2" = none ∧
    cex3After.cache.length = 4 :=
  ⟨rfl, rfl, by decide, rfl, rfl, rfl, rfl⟩

def okSt : DeviceManager :=
  { cache := [("d1", ⟨1, 310⟩), ("d2", ⟨2, 160⟩), ("d3", ⟨3, 200⟩),
              ("d4", ⟨4, 250⟩), ("d5", ⟨5, 300⟩)] }

/-- C3 witness: five fresh entries, LRU is `d2` (`last_used = 160`); the
acquisition for `d6` evicts exactly `d2` and appends the new handle. -/
theorem C3_lru_eviction_witness :
    okSt.cache.length = MAX_CACHED_DEVICES ∧
    (∀ p ∈ okSt.cache, ¬((400 : Int) - p.2.last_used > CACHE_TTL_SECONDS)) ∧
    validateDeviceId (some "d6") = true ∧
    okSt.cache.lookup "d6" = none ∧
    ((∃ c, (oldestKey okSt.cache, c) ∈ okSt.cache ∧
        ∀ p ∈ okSt.cache, c.last_used ≤ p.2.last_used) ∧
      getDevice okSt (some "d6") 400 [] (.ok 7) true =
        .ok (7, { okSt with cache := dictPop okSt.cache (oldestKey okSt.cache) ++
          [("d6", { device := 7, last_used := 400 })] })) :=
  ⟨rfl, by decide, by decide, rfl,
   C3_lru_eviction okSt "d6" 400 [] 7 rfl (by decide) (by decide) rfl⟩

/-! ### Claim C7 (code bug): trailing-newline device IDs pass validation -/

/-- C7: the claim says every device ID containing a newline is rejected with
`InvalidDeviceId` before any connection attempt.  The code belies it:
Python's `$` anchor (without `re.MULTILINE`) also matches just before a
single trailing newline, so `validate_device_id("abc\n")` returns `True`;
`get_device` then proceeds all the way to `u2.connect` and caches the handle
under the newline-bearing key, and `select_device` reaches the device
listing (failing with `DeviceNotFound`, not `InvalidDeviceId`).  This
contradicts the function's own error hint ("Device ID must match
[a-zA-Z0-9._:-]+") and the spec's security-control intent. -/
theorem C7_trailing_newline_accepted :
    validateDeviceId (some "abc\n") = true ∧
    ('\n' ∈ "abc\n".data) ∧
    isAllowedIdChar '\n' = false ∧
    getDevice devInit (some "abc\n") 0 [] (.ok 1) true =
      .ok (1, { devInit with cache := [("abc\n", { device := 1, last_used := 0 })] }) ∧
    selectDevice devInit "abc\n" [] = .error (.deviceNotFound (some "abc\n")) :=
  ⟨rfl, by decide, rfl, rfl, rfl⟩

end AndroidAgent
